import Mathlib

/-
Verification of the eslint-plugin-fetch static-analysis rules.

The embedding models the estree fragment the rules inspect.  A node's
identity (JS object identity, used by the rules' Sets and Maps) is its
unique path from the root, represented as the list of parent edges from
the node up to the Program; this list is simultaneously the ancestor
chain the rules walk via the `parent` pointers ESLint attaches.
-/

namespace FetchPlugin

/-- Object-literal property key: `Identifier` or string `Literal`. -/
inductive PKey where
  | ident (name : String)
  | str (value : String)
deriving DecidableEq, Repr

/-- Expression fragment of estree used by the rules.  `member` is a
non-computed member access with an `Identifier` property.  `objectExpr`
properties are (key, value) pairs (estree `Property` nodes). -/
inductive Expr where
  | ident (name : String)
  | strLit (value : String)
  | numLit (value : Int)
  | call (callee : Expr) (args : List Expr)
  | member (obj : Expr) (propName : String)
  | newExpr (calleeName : String) (args : List Expr)
  | awaitExpr (arg : Expr)
  | binop (op : String) (lhs rhs : Expr)
  | template (exprs : List Expr)
  | objectExpr (props : List (PKey × Expr))
  | arrowFn (params : List String) (body : Expr)
  | assignExpr (leftName : String) (rhs : Expr)
deriving Repr

/-- Statement fragment.  `varDecl` merges a `VariableDeclaration` with a
single `VariableDeclarator` whose id is an `Identifier`.  `tryStmt`
carries the protected block and the catch-handler block. -/
inductive Stmt where
  | exprStmt (e : Expr)
  | varDecl (name : String) (init : Expr)
  | tryStmt (block : List Stmt) (handler : List Stmt)
  | funcDecl (name : String) (params : List String) (body : List Stmt)
  | ifStmt (cond : Expr) (thenBranch elseBranch : List Stmt)
  | returnStmt (arg : Option Expr)
deriving Repr

/-- One parent edge.  A node's path is the list of edges from the node up
to the Program root; the edge says what the parent node is and which
child slot the node occupies, so paths are unique per node. -/
inductive Step where
  | progStmt (i : Nat)
  | blockItem (i : Nat)
  | tryBlock
  | tryHandler
  | catchBody
  | funcBody
  | ifThen
  | ifElse
  | ifCond
  | retArg
  | exprOfStmt
  | vdInit (name : String)
  | callCallee
  | callArg (i : Nat)
  | memberObj
  | newArg (i : Nat)
  | awaitArg
  | binLeft
  | binRight
  | tmplExpr (i : Nat)
  | objValue (i : Nat)
  | arrowBody
  | assignRhs (name : String)
deriving DecidableEq, Repr

/-- A reported diagnostic: anchored node path, message id, and whether a
fixer function was supplied with the report. -/
structure Diag where
  path : List Step
  msg : String
  fix : Bool
deriving DecidableEq, Repr

/-- JS `Set.add`: append if not already present (insertion order kept). -/
def addOnce {α : Type} [DecidableEq α] (x : α) (xs : List α) : List α :=
  if x ∈ xs then xs else xs ++ [x]

/-- JS `String.prototype.toLowerCase` (the rules only compare
basic-latin header and method names). -/
def strLower (s : String) : String := String.mk (s.data.map Char.toLower)

/-- JS `String.prototype.endsWith`. -/
def strEndsWith (s post : String) : Bool := post.data.isSuffixOf s.data

def listHasInfix (needle : List Char) : List Char → Bool
  | [] => needle.isEmpty
  | c :: cs => needle.isPrefixOf (c :: cs) || listHasInfix needle cs

/-- JS `String.prototype.includes`. -/
def strIncludes (s sub : String) : Bool := listHasInfix sub.data s.data

/- Pre-order traversal of an expression, producing each expression node
paired with its path (= ancestor chain), in ESLint visit order. -/
mutual

def visitExpr (anc : List Step) : Expr → List (List Step × Expr)
  | .ident n => [(anc, .ident n)]
  | .strLit s => [(anc, .strLit s)]
  | .numLit v => [(anc, .numLit v)]
  | .call c args =>
      (anc, .call c args) ::
        (visitExpr (.callCallee :: anc) c ++ visitExprList (fun i => .callArg i) anc 0 args)
  | .member o p => (anc, .member o p) :: visitExpr (.memberObj :: anc) o
  | .newExpr n args => (anc, .newExpr n args) :: visitExprList (fun i => .newArg i) anc 0 args
  | .awaitExpr a => (anc, .awaitExpr a) :: visitExpr (.awaitArg :: anc) a
  | .binop op l r =>
      (anc, .binop op l r) :: (visitExpr (.binLeft :: anc) l ++ visitExpr (.binRight :: anc) r)
  | .template es => (anc, .template es) :: visitExprList (fun i => .tmplExpr i) anc 0 es
  | .objectExpr props => (anc, .objectExpr props) :: visitPropList anc 0 props
  | .arrowFn ps b => (anc, .arrowFn ps b) :: visitExpr (.arrowBody :: anc) b
  | .assignExpr n r => (anc, .assignExpr n r) :: visitExpr (.assignRhs n :: anc) r

def visitExprList (mk : Nat → Step) (anc : List Step) (i : Nat) :
    List Expr → List (List Step × Expr)
  | [] => []
  | e :: es => visitExpr (mk i :: anc) e ++ visitExprList mk anc (i + 1) es

def visitPropList (anc : List Step) (i : Nat) :
    List (PKey × Expr) → List (List Step × Expr)
  | [] => []
  | pr :: prs => visitExpr (.objValue i :: anc) pr.2 ++ visitPropList anc (i + 1) prs

end

mutual

def visitStmt (anc : List Step) : Stmt → List (List Step × Expr)
  | .exprStmt e => visitExpr (.exprOfStmt :: anc) e
  | .varDecl n init => visitExpr (.vdInit n :: anc) init
  | .tryStmt b h =>
      visitStmtList (fun i => .blockItem i) (.tryBlock :: anc) 0 b ++
        visitStmtList (fun i => .blockItem i) (.catchBody :: .tryHandler :: anc) 0 h
  | .funcDecl _ _ body => visitStmtList (fun i => .blockItem i) (.funcBody :: anc) 0 body
  | .ifStmt c t e =>
      visitExpr (.ifCond :: anc) c ++
        visitStmtList (fun i => .blockItem i) (.ifThen :: anc) 0 t ++
        visitStmtList (fun i => .blockItem i) (.ifElse :: anc) 0 e
  | .returnStmt none => []
  | .returnStmt (some e) => visitExpr (.retArg :: anc) e

def visitStmtList (mk : Nat → Step) (anc : List Step) (i : Nat) :
    List Stmt → List (List Step × Expr)
  | [] => []
  | s :: ss => visitStmt (mk i :: anc) s ++ visitStmtList mk anc (i + 1) ss

end

/-- All expression nodes of one unit, pre-order, with their paths. -/
def visits (prog : List Stmt) : List (List Step × Expr) :=
  visitStmtList (fun i => .progStmt i) [] 0 prog

/- Generic subtree scan: check the node itself, then recurse into every
child, mirroring the rules' recursive child scans. -/
mutual

def exprAny (p : Expr → Bool) : Expr → Bool
  | .ident n => p (.ident n)
  | .strLit s => p (.strLit s)
  | .numLit v => p (.numLit v)
  | .call c args => p (.call c args) || exprAny p c || exprListAny p args
  | .member o pn => p (.member o pn) || exprAny p o
  | .newExpr n args => p (.newExpr n args) || exprListAny p args
  | .awaitExpr a => p (.awaitExpr a) || exprAny p a
  | .binop op l r => p (.binop op l r) || exprAny p l || exprAny p r
  | .template es => p (.template es) || exprListAny p es
  | .objectExpr props => p (.objectExpr props) || propListAny p props
  | .arrowFn ps b => p (.arrowFn ps b) || exprAny p b
  | .assignExpr n r => p (.assignExpr n r) || exprAny p r

def exprListAny (p : Expr → Bool) : List Expr → Bool
  | [] => false
  | e :: es => exprAny p e || exprListAny p es

def propListAny (p : Expr → Bool) : List (PKey × Expr) → Bool
  | [] => false
  | pr :: prs => exprAny p pr.2 || propListAny p prs

end

/-- Reports accumulated during traversal, in visit order, for rules that
report from their node handler without deferred state. -/
def collectDiags (f : List Step × Expr → List Diag) :
    List (List Step × Expr) → List Diag
  | [] => []
  | v :: vs => f v ++ collectDiags f vs

/-! ## Rule: require-error-handling (src/src/rules/require-error-handling.ts) -/

namespace RequireErrorHandling

/-- `isFetchCall`: callee is the bare identifier `fetch`. -/
def isFetchCall : Expr → Bool
  | .call (.ident n) _ => n == "fetch"
  | _ => false

/-- `isInsideTryCatch`: walk the parent chain; true iff some ancestor node
is a `TryStatement`.  The edges whose parent is the `TryStatement` node
are `tryBlock` (protected block) and `tryHandler` (catch clause). -/
def isInsideTryCatch (anc : List Step) : Bool :=
  anc.any (fun s => s == Step.tryBlock || s == Step.tryHandler)

/-- `hasPromiseChainWithCatch`: constantly false in the source ("we'll
rely on the program-wide catch detection"). -/
def hasPromiseChainWithCatch : Bool := false

/-- `isFireAndForget`: no parent, or the immediate parent is an
`ExpressionStatement`. -/
def isFireAndForget (anc : List Step) : Bool :=
  match anc with
  | [] => true
  | .exprOfStmt :: _ => true
  | _ => false

/-- `isCatchCall`: callee is a member expression whose property is the
identifier `catch`. -/
def isCatchCall : Expr → Bool
  | .call (.member _ p) _ => p == "catch"
  | _ => false

/-- The `while (current)` loop of `findFetchInPromiseChain`, walking down
`callee.object` links; returns the path of the fetch call node found. -/
def chainLoop : List Step → Expr → Option (List Step)
  | p, .call (.ident n) _ => if n == "fetch" then some p else none
  | p, .call (.member o prop) _ =>
      if prop == "then" || prop == "catch" then
        chainLoop (.memberObj :: .callCallee :: p) o
      else none
  | _, _ => none

/-- `findFetchInPromiseChain(node)`: null unless the callee is a member
expression; otherwise walk the chain from `callee.object`. -/
def findFetchInPromiseChain (anc : List Step) : Expr → Option (List Step)
  | .call (.member o _) _ => chainLoop (.memberObj :: .callCallee :: anc) o
  | _ => none

/-- The two Sets the rule builds during traversal. -/
structure RState where
  noHandling : List (List Step)
  handled : List (List Step)
deriving DecidableEq, Repr

/-- The `CallExpression` handler. -/
def step (st : RState) (v : List Step × Expr) : RState :=
  let st1 :=
    if isFetchCall v.2 then
      if isFireAndForget v.1 then st
      else if isInsideTryCatch v.1 || hasPromiseChainWithCatch then st
      else { st with noHandling := addOnce v.1 st.noHandling }
    else st
  if isCatchCall v.2 then
    match findFetchInPromiseChain v.1 v.2 with
    | some fp => { st1 with handled := addOnce fp st1.handled }
    | none => st1
  else st1

/-- Traversal plus the `Program:exit` report loop. -/
def run (prog : List Stmt) : List Diag :=
  let st := (visits prog).foldl step { noHandling := [], handled := [] }
  (st.noHandling.filter (fun p => p ∉ st.handled)).map
    (fun p => { path := p, msg := "missingErrorHandling", fix := false })

end RequireErrorHandling

/-! ## Rule: prefer-async-await (README lines 269-348) -/

namespace PreferAsyncAwait

def isFetchCall : Expr → Bool
  | .call (.ident n) _ => n == "fetch"
  | _ => false

/-- `isThenOrCatchCall`: callee is a member access named `then`/`catch`. -/
def isThenOrCatchCall : Expr → Bool
  | .call (.member _ p) _ => p == "then" || p == "catch"
  | _ => false

/-- The `while (current)` chain walk of `findFetchInChain`. -/
def chainLoop : List Step → Expr → Option (List Step)
  | p, .call (.ident n) _ => if n == "fetch" then some p else none
  | p, .call (.member o prop) _ =>
      if prop == "then" || prop == "catch" then
        chainLoop (.memberObj :: .callCallee :: p) o
      else none
  | _, _ => none

/-- `findFetchInChain(node)`. -/
def findFetchInChain (anc : List Step) : Expr → Option (List Step)
  | .call (.member o _) _ => chainLoop (.memberObj :: .callCallee :: anc) o
  | _ => none

/-- State: the `reportedFetches` Set and the diagnostics reported so far
(reports happen immediately, in traversal order). -/
def step (st : List (List Step) × List Diag) (v : List Step × Expr) :
    List (List Step) × List Diag :=
  if isThenOrCatchCall v.2 then
    match findFetchInChain v.1 v.2 with
    | some fp =>
        if fp ∈ st.1 then st
        else (st.1 ++ [fp], st.2 ++ [{ path := fp, msg := "preferAsyncAwait", fix := false }])
    | none => st
  else st

def run (prog : List Stmt) : List Diag :=
  ((visits prog).foldl step ([], [])).2

end PreferAsyncAwait

/-! ## Rule: require-status-check (src/src/rules/require-status-check.ts) -/

namespace RequireStatusCheck

def isFetchCall : Expr → Bool
  | .call (.ident n) _ => n == "fetch"
  | _ => false

/-- `findFetchAssignment`: walk up from the fetch call's parent; the first
`VariableDeclarator` or `AssignmentExpression` found decides, via
`getVariableName`, which in this fragment always has an `Identifier`
id/left and so returns its name. -/
def findFetchAssignment : List Step → Option String
  | [] => none
  | .vdInit n :: _ => some n
  | .assignRhs n :: _ => some n
  | _ :: rest => findFetchAssignment rest

structure SCState where
  fetchCalls : List (List Step)
  checkedResponses : List String
deriving DecidableEq, Repr

/-- The `CallExpression` and `MemberExpression` handlers (only one can
fire per node; both are applied in sequence here). -/
def step (st : SCState) (v : List Step × Expr) : SCState :=
  let st1 :=
    if isFetchCall v.2 then { st with fetchCalls := addOnce v.1 st.fetchCalls } else st
  let st2 :=
    match v.2 with
    | .member (.ident name) propName =>
        if propName == "ok" || propName == "status" then
          { st1 with checkedResponses := addOnce name st1.checkedResponses }
        else st1
    | _ => st1
  match v.2 with
  | .member (.awaitExpr (.call c args)) propName =>
      if isFetchCall (.call c args) && (propName == "ok" || propName == "status") then
        { st2 with fetchCalls := st2.fetchCalls.erase (Step.awaitArg :: Step.memberObj :: v.1) }
      else st2
  | _ => st2

/-- The `Program:exit` body for one tracked fetch call. -/
def reportOf (checked : List String) (p : List Step) : Option Diag :=
  match findFetchAssignment p with
  | some v => if v ∈ checked then none else some { path := p, msg := "missingStatusCheck", fix := false }
  | none => none

def run (prog : List Stmt) : List Diag :=
  let st := (visits prog).foldl step { fetchCalls := [], checkedResponses := [] }
  st.fetchCalls.filterMap (reportOf st.checkedResponses)

end RequireStatusCheck

/-! ## Rule: require-json-response-check
(src/src/rules/require-json-response-check.ts) -/

namespace RequireJsonResponseCheck

def isFetchCall : Expr → Bool
  | .call (.ident n) _ => n == "fetch"
  | _ => false

/-- `isJsonCall`: callee is a member access named `json`. -/
def isJsonCall : Expr → Bool
  | .call (.member _ p) _ => p == "json"
  | _ => false

/-- `getResponseVariableName`: walk all the way up; the first ancestor
that is a `VariableDeclarator` (with a named id) or an
`AssignmentExpression` with a named left side gives the name. -/
def getResponseVariableName : List Step → Option String
  | [] => none
  | .vdInit n :: _ => some n
  | .assignRhs n :: _ => some n
  | _ :: rest => getResponseVariableName rest

/-- `isContentTypeCheck`: a call `X.headers.get(lit)` whose first argument
is a string literal naming the content-type header. -/
def isContentTypeCheck : Expr → Bool
  | .call (.member (.member _ hname) gname) args =>
      gname == "get" && hname == "headers" &&
        (match args with
         | .strLit s :: _ =>
             let headerName := strLower s
             headerName == "content-type" || headerName == "Content-Type"
         | _ => false)
  | _ => false

/-- `isInsideTryCatch`: identical ancestor walk to the error-handling
rule's, duplicated in the source. -/
def isInsideTryCatch (anc : List Step) : Bool :=
  anc.any (fun s => s == Step.tryBlock || s == Step.tryHandler)

/-- `hasJsonExtension(fetchNode)`: first argument is a string literal
ending in ".json". -/
def hasJsonExtension : Expr → Bool
  | .call _ (.strLit s :: _) => strEndsWith s ".json"
  | _ => false

structure JState where
  responseVariables : List (String × Expr)
  checkedResponses : List String
  jsonCalls : List (List Step)
deriving Repr

/-- JS `Map.get` over the association list (latest `set` first). -/
def mapGet (m : List (String × Expr)) (k : String) : Option Expr :=
  (m.find? (fun pr => pr.1 == k)).map (fun pr => pr.2)

/-- The body of the `.json()` branch after the try/catch early return;
`o` is `callee.object`, `anc` the json call's path.  Early `return`s in
the source leave the state unchanged here. -/
def jsonPart (st : JState) (anc : List Step) (o : Expr) : JState :=
  match o with
  | .ident n =>
      (match mapGet st.responseVariables n with
       | some fc =>
           if isFetchCall fc && hasJsonExtension fc then st
           else if n ∈ st.checkedResponses then st
           else { st with jsonCalls := addOnce anc st.jsonCalls }
       | none =>
           if n ∈ st.checkedResponses then st
           else { st with jsonCalls := addOnce anc st.jsonCalls })
  | .awaitExpr a =>
      (match a with
       | .call c args =>
           if isFetchCall (.call c args) && hasJsonExtension (.call c args) then st
           else { st with jsonCalls := addOnce anc st.jsonCalls }
       | _ => { st with jsonCalls := addOnce anc st.jsonCalls })
  | _ => { st with jsonCalls := addOnce anc st.jsonCalls }

/-- The content-type tracking block at the end of the handler. -/
def ctPart (st : JState) (e : Expr) : JState :=
  if isContentTypeCheck e then
    match e with
    | .call (.member (.member (.ident n) _) _) _ =>
        { st with checkedResponses := addOnce n st.checkedResponses }
    | _ => st
  else st

/-- The rule's single `CallExpression` handler.  A node can never be both
a `.json()` call and a content-type check, so applying `ctPart` after the
json branch matches the source's early-return control flow. -/
def step (st : JState) (v : List Step × Expr) : JState :=
  let st1 :=
    if isFetchCall v.2 then
      match getResponseVariableName v.1 with
      | some n => { st with responseVariables := (n, v.2) :: st.responseVariables }
      | none => st
    else st
  let st2 :=
    match v.2 with
    | .call (.member o pname) _ =>
        if pname == "json" then
          if isInsideTryCatch v.1 then st1 else jsonPart st1 v.1 o
        else st1
    | _ => st1
  ctPart st2 v.2

def run (prog : List Stmt) : List Diag :=
  let st := (visits prog).foldl step { responseVariables := [], checkedResponses := [], jsonCalls := [] }
  st.jsonCalls.map (fun p => { path := p, msg := "missingContentTypeCheck", fix := false })

end RequireJsonResponseCheck

/-! ## Rule: require-json-content-type
(src/src/rules/require-json-content-type.ts) -/

namespace RequireJsonContentType

def isFetchCall : Expr → Bool
  | .call (.ident n) _ => n == "fetch"
  | _ => false

/-- `hasJSONStringifyInBody`: the first property with identifier key
`body` has a `JSON.stringify(...)` call as its value. -/
def hasJSONStringifyInBody (props : List (PKey × Expr)) : Bool :=
  match props.find? (fun pr => match pr.1 with | .ident n => n == "body" | _ => false) with
  | some pr =>
      (match pr.2 with
       | .call (.member (.ident jn) sn) _ => jn == "JSON" && sn == "stringify"
       | _ => false)
  | none => false

/-- `getContentTypeValue`: scan the headers object for a content-type key
(identifier keys may be spelled `contenttype`); a matching key whose
value is not a string literal is skipped and the loop continues. -/
def getContentTypeValue : List (PKey × Expr) → Option String
  | [] => none
  | pr :: rest =>
      match pr.1 with
      | .ident k =>
          let keyName := strLower k
          if keyName == "content-type" || keyName == "contenttype" then
            match pr.2 with
            | .strLit s => some s
            | _ => getContentTypeValue rest
          else getContentTypeValue rest
      | .str k =>
          if strLower k == "content-type" then
            match pr.2 with
            | .strLit s => some s
            | _ => getContentTypeValue rest
          else getContentTypeValue rest

/-- `getHeadersProperty`: first property with identifier key `headers`,
returned with its index (needed for the report anchor's path). -/
def findWithIndex {α : Type} (p : α → Bool) : List α → Nat → Option (Nat × α)
  | [], _ => none
  | x :: xs, i => if p x then some (i, x) else findWithIndex p xs (i + 1)

def getHeadersProperty (props : List (PKey × Expr)) : Option (Nat × (PKey × Expr)) :=
  findWithIndex (fun pr => match pr.1 with | .ident n => n == "headers" | _ => false) props 0



/-- The `CallExpression` handler: both `missingContentType` reports carry
a fixer; `incorrectContentType` does not; a headers property whose value
is not an object literal makes the handler return with no report. -/
def check (v : List Step × Expr) : List Diag :=
  match v.2 with
  | .call c args =>
      if !isFetchCall (.call c args) || args.length < 2 then []
      else
        match args[1]? with
        | some (Expr.objectExpr props) =>
            if !hasJSONStringifyInBody props then []
            else
              match getHeadersProperty props with
              | none =>
                  [{ path := Step.callArg 1 :: v.1, msg := "missingContentType", fix := true }]
              | some (i, pr) =>
                  match pr.2 with
                  | .objectExpr hprops =>
                      (match getContentTypeValue hprops with
                       | none =>
                           [{ path := Step.objValue i :: Step.callArg 1 :: v.1,
                              msg := "missingContentType", fix := true }]
                       | some ct =>
                           if strIncludes ct "application/json" then []
                           else
                             [{ path := Step.objValue i :: Step.callArg 1 :: v.1,
                                msg := "incorrectContentType", fix := false }])
                  | _ => []
        | _ => []
  | _ => []

def run (prog : List Stmt) : List Diag :=
  collectDiags check (visits prog)

end RequireJsonContentType

/-! ## Rule: no JSON body in GET-like requests (src/unnamed/part_005) -/

namespace NoJsonInGet

def isFetchCall : Expr → Bool
  | .call (.ident n) _ => n == "fetch"
  | _ => false

/-- `getHttpMethod`: the first `method` property's value, lowercased, when
it is a string literal; null otherwise ("Default is GET"). -/
def getHttpMethod : Expr → Option String
  | .objectExpr props =>
      (match props.find? (fun pr => match pr.1 with | .ident n => n == "method" | _ => false) with
       | some pr => (match pr.2 with | .strLit s => some (strLower s) | _ => none)
       | none => none)
  | _ => none

/-- `hasJSONStringifyInBody` on the options argument (this rule's own
copy, taking the whole argument). -/
def hasJSONStringifyInBody : Expr → Bool
  | .objectExpr props =>
      (match props.find? (fun pr => match pr.1 with | .ident n => n == "body" | _ => false) with
       | some pr =>
           (match pr.2 with
            | .call (.member (.ident jn) sn) _ => jn == "JSON" && sn == "stringify"
            | _ => false)
       | none => false)
  | _ => false

/-- `isGetLikeMethod`: a missing method defaults to GET. -/
def isGetLikeMethod : Option String → Bool
  | none => true
  | some m => ["get", "head", "options"].contains (strLower m)

/-- The `CallExpression` handler; reports at the fetch call node. -/
def check (v : List Step × Expr) : List Diag :=
  match v.2 with
  | .call c args =>
      if !isFetchCall (.call c args) then []
      else if args.length < 2 then []
      else
        match args[1]? with
        | some opts =>
            if isGetLikeMethod (getHttpMethod opts) && hasJSONStringifyInBody opts then
              [{ path := v.1, msg := "jsonInGetRequest", fix := false }]
            else []
        | none => []
  | _ => []

def run (prog : List Stmt) : List Diag :=
  collectDiags check (visits prog)

end NoJsonInGet

/-! ## Rule: require-timeout (README lines 151-268) -/

namespace RequireTimeout

def isFetchCall : Expr → Bool
  | .call (.ident n) _ => n == "fetch"
  | _ => false

/-- `hasTimeoutConfiguration`: the options object's `signal` property is
either an `AbortSignal.timeout(...)` call or any member access ending in
`.signal` (assumed paired with a timer). -/
def hasTimeoutConfiguration : Expr → Bool
  | .call _ args =>
      if args.length > 1 then
        match args[1]? with
        | some (Expr.objectExpr props) =>
            (match props.find?
                (fun pr => match pr.1 with | .ident n => n == "signal" | _ => false) with
             | some pr =>
                 (match pr.2 with
                  | .call (.member (.ident an) tn) _ => an == "AbortSignal" && tn == "timeout"
                  | .member _ pn => pn == "signal"
                  | _ => false)
             | none => false)
        | _ => false
      else false
  | _ => false

def check (v : List Step × Expr) : List Diag :=
  if isFetchCall v.2 then
    if !hasTimeoutConfiguration v.2 then
      [{ path := v.1, msg := "missingTimeout", fix := false }]
    else []
  else []

def run (prog : List Stmt) : List Diag :=
  collectDiags check (visits prog)

end RequireTimeout

/-! ## Rule: require-encoded-query-params (src/unnamed/part_006) -/

namespace RequireEncodedQueryParams

def isFetchCall : Expr → Bool
  | .call (.ident n) _ => n == "fetch"
  | _ => false

/-- `hasEncodeURIComponent`: self-check plus recursive child scan. -/
def hasEncodeURIComponent (e : Expr) : Bool :=
  exprAny (fun x => match x with | .call (.ident n) _ => n == "encodeURIComponent" | _ => false) e

/-- `hasURLConstructor`: a `new URL(...)` anywhere in the subtree. -/
def hasURLConstructor (e : Expr) : Bool :=
  exprAny (fun x => match x with | .newExpr n _ => n == "URL" | _ => false) e

/-- The second self-check of `hasURLSearchParams`: any member call whose
property is named `toString`, for any receiver. -/
def isToStringMethodCall : Expr → Bool
  | .call (.member _ p) _ => p == "toString"
  | _ => false

/-- `hasURLSearchParams`: a `new URLSearchParams(...)` or any
`X.toString()` call anywhere in the subtree. -/
def hasURLSearchParams (e : Expr) : Bool :=
  exprAny
    (fun x =>
      (match x with | .newExpr n _ => n == "URLSearchParams" | _ => false) ||
        isToStringMethodCall x) e

/-- `containsQueryParams`: `+`-concatenation or a template literal with
expressions counts as dynamic, unless the subtree already uses
URLSearchParams; literal-only URLs are safe. -/
def containsQueryParams (urlArg : Expr) : Bool :=
  match urlArg with
  | .binop op l r =>
      if op == "+" then !hasURLSearchParams (.binop op l r) else false
  | .template es =>
      if es.length > 0 then !hasURLSearchParams (.template es) else false
  | _ => false

/-- `checkUrlArgument`, parameterized by the `allowManualEncoding` option
(true unless the configuration sets it to `false`). -/
def checkUrlArgument (allowManualEncoding : Bool) (path : List Step) (urlArg : Expr) :
    List Diag :=
  if !containsQueryParams urlArg then []
  else
    let hasProperEncoding :=
      hasEncodeURIComponent urlArg || hasURLConstructor urlArg || hasURLSearchParams urlArg
    if !hasProperEncoding then
      [{ path := path, msg := "unsafeQueryParam", fix := false }]
    else if allowManualEncoding && hasEncodeURIComponent urlArg && !hasURLSearchParams urlArg then
      [{ path := path, msg := "preferURLSearchParams", fix := false }]
    else []

def check (allowManualEncoding : Bool) (v : List Step × Expr) : List Diag :=
  match v.2 with
  | .call c args =>
      if !isFetchCall (.call c args) || args.length == 0 then []
      else
        match args[0]? with
        | some urlArg => checkUrlArgument allowManualEncoding (Step.callArg 0 :: v.1) urlArg
        | none => []
  | _ => []

def run (allowManualEncoding : Bool) (prog : List Stmt) : List Diag :=
  collectDiags (check allowManualEncoding) (visits prog)

end RequireEncodedQueryParams

/-- All eight detectors run over one unit (query encoding with its
default option value). -/
def runAllRules (prog : List Stmt) : List Diag :=
  RequireErrorHandling.run prog ++ RequireStatusCheck.run prog ++
    RequireJsonContentType.run prog ++ RequireJsonResponseCheck.run prog ++
    RequireTimeout.run prog ++ PreferAsyncAwait.run prog ++
    NoJsonInGet.run prog ++ RequireEncodedQueryParams.run true prog

/-! ## Concrete units used by the claims -/

/-- `fetch('/x').then(r => r.json()).then(d => log(d));` -/
def c1Fetch : Expr := .call (.ident "fetch") [.strLit "/x"]

def c1Inner : Expr :=
  .call (.member c1Fetch "then") [.arrowFn ["r"] (.call (.member (.ident "r") "json") [])]

def c1Prog : List Stmt :=
  [.exprStmt (.call (.member c1Inner "then")
    [.arrowFn ["d"] (.call (.ident "log") [.ident "d"])])]

/-- Path of the `fetch('/x')` call node in `c1Prog`. -/
def c1FetchPath : List Step :=
  [.memberObj, .callCallee, .memberObj, .callCallee, .exprOfStmt, .progStmt 0]

/-- Path of the `r.json()` call node in `c1Prog`. -/
def c1JsonPath : List Step :=
  [.arrowBody, .callArg 0, .memberObj, .callCallee, .exprOfStmt, .progStmt 0]

/-- `try { } catch (e) { const r = fetch('/x'); }` — the fetch call lies
only in the handler (catch) region. -/
def c2Prog : List Stmt :=
  [.tryStmt [] [.varDecl "r" (.call (.ident "fetch") [.strLit "/x"])]]

/-- Ancestor chain of the fetch call inside the catch handler of
`c2Prog`. -/
def c2FetchChain : List Step :=
  [.vdInit "r", .blockItem 0, .catchBody, .tryHandler, .progStmt 0]

/-- `const r = await fetch('/a'); try { } catch (e) { r.json(); }` — the
`.json()` continuation lies only in the handler region. -/
def c2jProg : List Stmt :=
  [.varDecl "r" (.awaitExpr (.call (.ident "fetch") [.strLit "/a"])),
   .tryStmt [] [.exprStmt (.call (.member (.ident "r") "json") [])]]

/-- Chain of the `r.json()` call inside the catch handler of `c2jProg`. -/
def c2JsonChain : List Step :=
  [.exprOfStmt, .blockItem 0, .catchBody, .tryHandler, .progStmt 1]

/-- `fetch(url, { method: m, body: JSON.stringify(x) });` — dynamic
(non-literal) method name with a JSON body. -/
def c4Prog : List Stmt :=
  [.exprStmt (.call (.ident "fetch")
    [.ident "url",
     .objectExpr
       [(.ident "method", .ident "m"),
        (.ident "body", .call (.member (.ident "JSON") "stringify") [.ident "x"])]])]

/-- `fetch('/api', { body: JSON.stringify(x), headers: h });` — headers
present but not an object literal. -/
def c6Prog : List Stmt :=
  [.exprStmt (.call (.ident "fetch")
    [.strLit "/api",
     .objectExpr
       [(.ident "body", .call (.member (.ident "JSON") "stringify") [.ident "x"]),
        (.ident "headers", .ident "h")]])]

/-- `fetch('/api', { body: JSON.stringify(x), headers: { a: b } });` —
same call with an object-literal headers lacking content-type. -/
def c6bProg : List Stmt :=
  [.exprStmt (.call (.ident "fetch")
    [.strLit "/api",
     .objectExpr
       [(.ident "body", .call (.member (.ident "JSON") "stringify") [.ident "x"]),
        (.ident "headers", .objectExpr [(.ident "a", .ident "b")])]])]

/-- `function g() { r.ok; } function f() { const r = await fetch('/a'); }`
— the `.ok` access is in a different function and lexically before the
call site. -/
def c7Prog : List Stmt :=
  [.funcDecl "g" [] [.exprStmt (.member (.ident "r") "ok")],
   .funcDecl "f" [] [.varDecl "r" (.awaitExpr (.call (.ident "fetch") [.strLit "/a"]))]]

/-- The same unit with the foreign access removed. -/
def c7OnlyF : List Stmt :=
  [.funcDecl "f" [] [.varDecl "r" (.awaitExpr (.call (.ident "fetch") [.strLit "/a"]))]]

/-- Path of the fetch call in `c7OnlyF`. -/
def c7FetchPath : List Step :=
  [.awaitArg, .vdInit "r", .blockItem 0, .funcBody, .progStmt 0]

/-- `fetch(url + '?q=' + q);` -/
def c8aProg : List Stmt :=
  [.exprStmt (.call (.ident "fetch")
    [.binop "+" (.binop "+" (.ident "url") (.strLit "?q=")) (.ident "q")])]

/-- `fetch(url + '?q=' + encodeURIComponent(q));` -/
def c8bProg : List Stmt :=
  [.exprStmt (.call (.ident "fetch")
    [.binop "+" (.binop "+" (.ident "url") (.strLit "?q="))
      (.call (.ident "encodeURIComponent") [.ident "q"])])]

/-- Path of the URL argument in `c8aProg`/`c8bProg`. -/
def c8UrlPath : List Step := [.callArg 0, .exprOfStmt, .progStmt 0]

/-- `const r = await fetch('/a');` followed by `n` copies of
`r.json();`. -/
def c9Prog (n : Nat) : List Stmt :=
  Stmt.varDecl "r" (.awaitExpr (.call (.ident "fetch") [.strLit "/a"])) ::
    List.replicate n (Stmt.exprStmt (.call (.member (.ident "r") "json") []))

/-- `fetch('/api?q=' + q.toString());` -/
def c10Url : Expr :=
  .binop "+" (.strLit "/api?q=") (.call (.member (.ident "q") "toString") [])

def c10Prog : List Stmt := [.exprStmt (.call (.ident "fetch") [c10Url])]

/-! ## Schematic promise chains (claim C5) -/

/-- Continuation name: catch-style or then-style. -/
def contName (c : Bool) : String := if c then "catch" else "then"

/-- `mkChainR u cs` builds `fetch(u).…` with the continuations applied
inside-out: the HEAD of `cs` is the outermost (final) continuation.  Each
continuation takes the identity arrow as its handler. -/
def mkChainR (u : String) : List Bool → Expr
  | [] => .call (.ident "fetch") [.strLit u]
  | c :: cs => .call (.member (mkChainR u cs) (contName c)) [.arrowFn ["x"] (.ident "x")]

/-- Path of the fetch call at the root of `mkChainR u cs` when the whole
chain expression sits at path `anc`. -/
def fpos : List Bool → List Step → List Step
  | [], anc => anc
  | _ :: cs, anc => fpos cs (.memberObj :: .callCallee :: anc)

/-- A unit holding one promise chain as an expression statement. -/
def chainProg (u : String) (cs : List Bool) : List Stmt := [.exprStmt (mkChainR u cs)]

end FetchPlugin

/-! # Theorems -/

namespace FetchPlugin

/-! ## Library lemmas about the shared helpers -/

theorem mem_addOnce_self {α : Type} [DecidableEq α] (x : α) (l : List α) :
    x ∈ addOnce x l := by
  unfold addOnce
  split
  · assumption
  · simp

theorem mem_addOnce_of_mem {α : Type} [DecidableEq α] (x : α) {y : α} {l : List α}
    (h : y ∈ l) : y ∈ addOnce x l := by
  unfold addOnce
  split
  · exact h
  · simp [h]

theorem addOnce_of_mem {α : Type} [DecidableEq α] {x : α} {l : List α} (h : x ∈ l) :
    addOnce x l = l := if_pos h

theorem addOnce_of_not_mem {α : Type} [DecidableEq α] {x : α} {l : List α} (h : x ∉ l) :
    addOnce x l = l ++ [x] := if_neg h

theorem addOnce_idem {α : Type} [DecidableEq α] (x : α) (l : List α) :
    addOnce x (addOnce x l) = addOnce x l :=
  addOnce_of_mem (mem_addOnce_self x l)

theorem collectDiags_mem_of {f : List Step × Expr → List Diag}
    {v : List Step × Expr} {d : Diag} :
    ∀ {l : List (List Step × Expr)}, v ∈ l → d ∈ f v → d ∈ collectDiags f l := by
  intro l
  induction l with
  | nil => intro h; cases h
  | cons w ws ih =>
      intro hv hd
      rcases List.mem_cons.mp hv with h | h
      · subst h
        exact List.mem_append_left _ hd
      · exact List.mem_append_right _ (ih h hd)

theorem visitStmtList_append (mk : Nat → Step) (anc : List Step) :
    ∀ (l1 : List Stmt) (i : Nat) (l2 : List Stmt),
      visitStmtList mk anc i (l1 ++ l2) =
        visitStmtList mk anc i l1 ++ visitStmtList mk anc (i + l1.length) l2 := by
  intro l1
  induction l1 with
  | nil => intro i l2; simp [visitStmtList]
  | cons s ss ih =>
      intro i l2
      have harith : i + 1 + ss.length = i + (ss.length + 1) := by omega
      simp [visitStmtList, ih (i + 1) l2, harith, List.append_assoc]

theorem visitStmt_subset_visitStmtList (mk : Nat → Step) (anc : List Step) :
    ∀ (ss : List Stmt) (i : Nat) (s : Stmt), s ∈ ss →
      ∃ j, ∀ v ∈ visitStmt (mk j :: anc) s, v ∈ visitStmtList mk anc i ss := by
  intro ss
  induction ss with
  | nil => intro i s h; cases h
  | cons a ssr ih =>
      intro i s hs
      rcases List.mem_cons.mp hs with h | h
      · subst h
        exact ⟨i, fun v hv => by
          simp only [visitStmtList]
          exact List.mem_append_left _ hv⟩
      · obtain ⟨j, hj⟩ := ih (i + 1) s h
        exact ⟨j, fun v hv => by
          simp only [visitStmtList]
          exact List.mem_append_right _ (hj v hv)⟩

/-! ## Status-check rule: the checked-name set is global and monotone -/

theorem sc_step_checked_mono {st : RequireStatusCheck.SCState} {v : List Step × Expr}
    {x : String} (h : x ∈ st.checkedResponses) :
    x ∈ (RequireStatusCheck.step st v).checkedResponses := by
  unfold RequireStatusCheck.step
  repeat' split
  all_goals simp_all [mem_addOnce_of_mem]

theorem sc_foldl_checked_mono {x : String} :
    ∀ (l : List (List Step × Expr)) (st : RequireStatusCheck.SCState),
      x ∈ st.checkedResponses →
      x ∈ (l.foldl RequireStatusCheck.step st).checkedResponses := by
  intro l
  induction l with
  | nil => intro st h; exact h
  | cons v vs ih => intro st h; exact ih _ (sc_step_checked_mono h)

theorem sc_step_adds_checked {st : RequireStatusCheck.SCState} {V prop : String}
    {ancM : List Step} (hprop : prop = "ok" ∨ prop = "status") :
    V ∈ (RequireStatusCheck.step st (ancM, Expr.member (.ident V) prop)).checkedResponses := by
  unfold RequireStatusCheck.step
  rcases hprop with h | h <;> subst h <;>
    simp [RequireStatusCheck.isFetchCall, mem_addOnce_self]

theorem sc_foldl_checked_mem {V prop : String} {ancM : List Step}
    (hprop : prop = "ok" ∨ prop = "status") :
    ∀ (l : List (List Step × Expr)) (st : RequireStatusCheck.SCState),
      (ancM, Expr.member (.ident V) prop) ∈ l →
      V ∈ (l.foldl RequireStatusCheck.step st).checkedResponses := by
  intro l
  induction l with
  | nil => intro st h; cases h
  | cons v vs ih =>
      intro st hv
      rcases List.mem_cons.mp hv with h | h
      · rw [List.foldl_cons, ← h]
        exact sc_foldl_checked_mono vs _ (sc_step_adds_checked hprop)
      · exact ih _ h

/-- Any `.ok`/`.status` member access on an identifier named `V`
anywhere in the unit suppresses `missingStatusCheck` for every fetch
call the exit handler resolves to the binding name `V`. -/
theorem statusCheck_suppressed (prog : List Stmt) (V prop : String) (ancM p : List Step)
    (hprop : prop = "ok" ∨ prop = "status")
    (hmem : (ancM, Expr.member (.ident V) prop) ∈ visits prog)
    (hfa : RequireStatusCheck.findFetchAssignment p = some V) :
    Diag.mk p "missingStatusCheck" false ∉ RequireStatusCheck.run prog := by
  intro hd
  unfold RequireStatusCheck.run at hd
  rw [List.mem_filterMap] at hd
  obtain ⟨q, hq, hrep⟩ := hd
  have hV : V ∈ ((visits prog).foldl RequireStatusCheck.step
      { fetchCalls := [], checkedResponses := [] }).checkedResponses :=
    sc_foldl_checked_mem hprop (visits prog) _ hmem
  unfold RequireStatusCheck.reportOf at hrep
  rcases hq2 : RequireStatusCheck.findFetchAssignment q with _ | w
  · rw [hq2] at hrep; cases hrep
  · rw [hq2] at hrep
    dsimp only at hrep
    by_cases hw : w ∈ ((visits prog).foldl RequireStatusCheck.step
        { fetchCalls := [], checkedResponses := [] }).checkedResponses
    · rw [if_pos hw] at hrep; cases hrep
    · rw [if_neg hw] at hrep
      have hqp : q = p := by
        have := Option.some.inj hrep
        exact congrArg Diag.path this
      subst hqp
      rw [hq2] at hfa
      exact hw (Option.some.inj hfa ▸ hV)

/-! ## Monotonicity of the recursive subtree scans -/

mutual

theorem exprAny_mono (p q : Expr → Bool) (h : ∀ x, p x = true → q x = true) :
    ∀ e, exprAny p e = true → exprAny q e = true
  | .ident n => fun he => by
      simp only [exprAny] at he ⊢; exact h _ he
  | .strLit s => fun he => by
      simp only [exprAny] at he ⊢; exact h _ he
  | .numLit v => fun he => by
      simp only [exprAny] at he ⊢; exact h _ he
  | .call c args => fun he => by
      simp only [exprAny, Bool.or_eq_true] at he ⊢
      rcases he with (hp | hc) | hargs
      · exact Or.inl (Or.inl (h _ hp))
      · exact Or.inl (Or.inr (exprAny_mono p q h c hc))
      · exact Or.inr (exprListAny_mono p q h args hargs)
  | .member o pn => fun he => by
      simp only [exprAny, Bool.or_eq_true] at he ⊢
      rcases he with hp | ho
      · exact Or.inl (h _ hp)
      · exact Or.inr (exprAny_mono p q h o ho)
  | .newExpr n args => fun he => by
      simp only [exprAny, Bool.or_eq_true] at he ⊢
      rcases he with hp | hargs
      · exact Or.inl (h _ hp)
      · exact Or.inr (exprListAny_mono p q h args hargs)
  | .awaitExpr a => fun he => by
      simp only [exprAny, Bool.or_eq_true] at he ⊢
      rcases he with hp | ha
      · exact Or.inl (h _ hp)
      · exact Or.inr (exprAny_mono p q h a ha)
  | .binop op l r => fun he => by
      simp only [exprAny, Bool.or_eq_true] at he ⊢
      rcases he with (hp | hl) | hr
      · exact Or.inl (Or.inl (h _ hp))
      · exact Or.inl (Or.inr (exprAny_mono p q h l hl))
      · exact Or.inr (exprAny_mono p q h r hr)
  | .template es => fun he => by
      simp only [exprAny, Bool.or_eq_true] at he ⊢
      rcases he with hp | hes
      · exact Or.inl (h _ hp)
      · exact Or.inr (exprListAny_mono p q h es hes)
  | .objectExpr props => fun he => by
      simp only [exprAny, Bool.or_eq_true] at he ⊢
      rcases he with hp | hprops
      · exact Or.inl (h _ hp)
      · exact Or.inr (propListAny_mono p q h props hprops)
  | .arrowFn ps b => fun he => by
      simp only [exprAny, Bool.or_eq_true] at he ⊢
      rcases he with hp | hb
      · exact Or.inl (h _ hp)
      · exact Or.inr (exprAny_mono p q h b hb)
  | .assignExpr n r => fun he => by
      simp only [exprAny, Bool.or_eq_true] at he ⊢
      rcases he with hp | hr
      · exact Or.inl (h _ hp)
      · exact Or.inr (exprAny_mono p q h r hr)

theorem exprListAny_mono (p q : Expr → Bool) (h : ∀ x, p x = true → q x = true) :
    ∀ es, exprListAny p es = true → exprListAny q es = true
  | [] => fun he => by simp only [exprListAny] at he; cases he
  | e :: es => fun he => by
      simp only [exprListAny, Bool.or_eq_true] at he ⊢
      rcases he with he1 | hes
      · exact Or.inl (exprAny_mono p q h e he1)
      · exact Or.inr (exprListAny_mono p q h es hes)

theorem propListAny_mono (p q : Expr → Bool) (h : ∀ x, p x = true → q x = true) :
    ∀ prs, propListAny p prs = true → propListAny q prs = true
  | [] => fun he => by simp only [propListAny] at he; cases he
  | pr :: prs => fun he => by
      simp only [propListAny, Bool.or_eq_true] at he ⊢
      rcases he with he1 | hprs
      · exact Or.inl (exprAny_mono p q h pr.2 he1)
      · exact Or.inr (propListAny_mono p q h prs hprs)

end

/-! ## Claim theorems -/

/-- Claim C1, counterexample.  On the unit
`fetch('/x').then(r => r.json()).then(d => log(d));` the claim says the
timeout and receive-side content-type detectors report nothing; in fact
the timeout detector reports `missingTimeout` at the fetch call and the
receive-side detector reports `missingContentTypeCheck` at the `r.json()`
call. -/
theorem c1_counterexample :
    RequireTimeout.run c1Prog =
      [{ path := c1FetchPath, msg := "missingTimeout", fix := false }] ∧
    RequireJsonResponseCheck.run c1Prog =
      [{ path := c1JsonPath, msg := "missingContentTypeCheck", fix := false }] :=
  ⟨rfl, rfl⟩

/-- Claim C1, amended: running all detectors on
`fetch('/x').then(r => r.json()).then(d => log(d))` produces exactly four
diagnostics — `preferAsyncAwait`, `missingErrorHandling` and
`missingTimeout` anchored at the `fetch('/x')` call node, and
`missingContentTypeCheck` anchored at the `r.json()` call — and zero
`missingStatusCheck`. -/
theorem c1_amended :
    runAllRules c1Prog =
      [{ path := c1FetchPath, msg := "missingErrorHandling", fix := false },
       { path := c1JsonPath, msg := "missingContentTypeCheck", fix := false },
       { path := c1FetchPath, msg := "missingTimeout", fix := false },
       { path := c1FetchPath, msg := "preferAsyncAwait", fix := false }] := rfl

/-- Claim C2, counterexample.  A fetch call bound inside a catch handler
(`try { } catch { const r = fetch('/x'); }`) lies only in the handler
region, yet both rules' `isInsideTryCatch` are true on its ancestor
chain, so the error-handling rule reports nothing for it; likewise a
`r.json()` call inside a catch handler is skipped by the receive-side
rule. -/
theorem c2_counterexample :
    RequireErrorHandling.isInsideTryCatch c2FetchChain = true ∧
    (visits c2Prog).any
      (fun v => decide (v.1 = c2FetchChain) && RequireErrorHandling.isFetchCall v.2) = true ∧
    RequireErrorHandling.run c2Prog = [] ∧
    RequireJsonResponseCheck.isInsideTryCatch c2JsonChain = true ∧
    (visits c2jProg).any
      (fun v => decide (v.1 = c2JsonChain) && RequireJsonResponseCheck.isJsonCall v.2) = true ∧
    RequireJsonResponseCheck.run c2jProg = [] :=
  ⟨rfl, rfl, rfl, rfl, rfl, rfl⟩

/-- Claim C2, amended: `isInsideTryCatch` (in both the error-handling and
the receive-side content-type rules) is true whenever some ancestor is a
`TryStatement`, whether the node lies in the protected region or in the
catch-handler region, so code inside a catch block is treated as
exception-protected. -/
theorem c2_amended (anc : List Step)
    (h : Step.tryBlock ∈ anc ∨ Step.tryHandler ∈ anc) :
    RequireErrorHandling.isInsideTryCatch anc = true ∧
    RequireJsonResponseCheck.isInsideTryCatch anc = true := by
  have key : anc.any (fun s => s == Step.tryBlock || s == Step.tryHandler) = true := by
    rw [List.any_eq_true]
    rcases h with hm | hm
    · exact ⟨Step.tryBlock, hm, by simp⟩
    · exact ⟨Step.tryHandler, hm, by simp⟩
  exact ⟨key, key⟩

/-- Witness for `c2_amended` at the concrete handler-region chain of
`c2Prog`. -/
theorem c2_amended_witness :
    RequireErrorHandling.isInsideTryCatch c2FetchChain = true :=
  (c2_amended c2FetchChain (Or.inr (by simp [c2FetchChain]))).1

/-- Claim C3: a fetch call site bound to a variable `V` that is followed,
in the same (top-level) block, by a member access `V.ok` or `V.status`
is never reported by the status-check detector, even though the check is
visited after the call site, because reporting is deferred to
`Program:exit`. -/
theorem c3_sameBlockLaterCheck (pre mid post : List Stmt) (V u prop : String)
    (hprop : prop = "ok" ∨ prop = "status") :
    Diag.mk [Step.awaitArg, Step.vdInit V, Step.progStmt pre.length]
        "missingStatusCheck" false ∉
      RequireStatusCheck.run
        (pre ++ [Stmt.varDecl V (.awaitExpr (.call (.ident "fetch") [.strLit u]))] ++
          mid ++ [Stmt.exprStmt (.member (.ident V) prop)] ++ post) := by
  obtain ⟨j, hj⟩ :=
    visitStmt_subset_visitStmtList (fun i => Step.progStmt i) []
      (pre ++ [Stmt.varDecl V (.awaitExpr (.call (.ident "fetch") [.strLit u]))] ++
        mid ++ [Stmt.exprStmt (.member (.ident V) prop)] ++ post) 0
      (Stmt.exprStmt (.member (.ident V) prop)) (by simp)
  exact statusCheck_suppressed _ V prop [Step.exprOfStmt, Step.progStmt j] _ hprop
    (hj _ (by simp [visitStmt, visitExpr])) rfl

/-- Witness for `c3_sameBlockLaterCheck`:
`const r = await fetch('/a'); r.ok;` yields no `missingStatusCheck` for
that fetch call. -/
theorem c3_witness :
    Diag.mk [Step.awaitArg, Step.vdInit "r", Step.progStmt 0]
        "missingStatusCheck" false ∉
      RequireStatusCheck.run
        [Stmt.varDecl "r" (.awaitExpr (.call (.ident "fetch") [.strLit "/a"])),
         Stmt.exprStmt (.member (.ident "r") "ok")] :=
  c3_sameBlockLaterCheck [] [] [] "r" "/a" "ok" (Or.inl rfl)

/-- Claim C4, counterexample.  `fetch(url, { method: m, body:
JSON.stringify(x) })` has a dynamic (non-literal) method name, and the
claim says the detector declines; in fact it reports `jsonInGetRequest`
at the fetch call. -/
theorem c4_counterexample :
    NoJsonInGet.run c4Prog =
      [{ path := [Step.exprOfStmt, Step.progStmt 0], msg := "jsonInGetRequest",
         fix := false }] := rfl

/-- Claim C4, amended: a `method` property whose value is not a string
literal makes `getHttpMethod` return null, which `isGetLikeMethod` treats
exactly like a missing method (the GET default), so with a
`JSON.stringify` body the detector reports `jsonInGetRequest` rather than
declining. -/
theorem c4_amended (u mv b : Expr) (hmv : ∀ s, mv ≠ Expr.strLit s) :
    Diag.mk [Step.exprOfStmt, Step.progStmt 0] "jsonInGetRequest" false ∈
      NoJsonInGet.run
        [Stmt.exprStmt (.call (.ident "fetch")
          [u, .objectExpr
            [(.ident "method", mv),
             (.ident "body", .call (.member (.ident "JSON") "stringify") [b])]])] := by
  unfold NoJsonInGet.run
  refine collectDiags_mem_of (v := ([Step.exprOfStmt, Step.progStmt 0],
    Expr.call (.ident "fetch")
      [u, .objectExpr
        [(.ident "method", mv),
         (.ident "body", .call (.member (.ident "JSON") "stringify") [b])]]))
    (List.mem_cons_self _ _) ?_
  cases mv
  case strLit s => exact absurd rfl (hmv s)
  all_goals exact List.mem_cons_self _ _

/-- Witness for `c4_amended` at the concrete unit `c4Prog`. -/
theorem c4_amended_witness :
    Diag.mk [Step.exprOfStmt, Step.progStmt 0] "jsonInGetRequest" false ∈
      NoJsonInGet.run c4Prog :=
  c4_amended (.ident "url") (.ident "m") (.ident "x") (fun _ h => Expr.noConfusion h)

/-- Claim C6, counterexample.  `fetch('/api', { body: JSON.stringify(x),
headers: h })` has a headers property whose value is not an object
literal; the claim says the violation is still reported without a fix,
but the rule reports nothing at all — while the same call with a real
headers object missing content-type is reported (with a fix). -/
theorem c6_counterexample :
    RequireJsonContentType.run c6Prog = [] ∧
    RequireJsonContentType.run c6bProg =
      [{ path := [Step.objValue 1, Step.callArg 1, Step.exprOfStmt, Step.progStmt 0],
         msg := "missingContentType", fix := true }] :=
  ⟨rfl, rfl⟩

/-- Claim C6, amended: when the options body is a `JSON.stringify` call
and a `headers` property exists whose value is not an object literal
(here: a plain variable), the send-side detector declines entirely — no
diagnostic and no fix. -/
theorem c6_amended (u hname bx : String) :
    RequireJsonContentType.run
      [Stmt.exprStmt (.call (.ident "fetch")
        [.strLit u, .objectExpr
          [(.ident "body", .call (.member (.ident "JSON") "stringify") [.ident bx]),
           (.ident "headers", .ident hname)]])] = [] := rfl

/-- Claim C7, counterexample.  In
`function g() { r.ok; } function f() { const r = await fetch('/a'); }`
the `.ok` access is in a different function and lexically precedes the
call site, yet it suppresses the diagnostic (the rule reports nothing);
removing it makes the rule report `missingStatusCheck`. -/
theorem c7_counterexample :
    RequireStatusCheck.run c7Prog = [] ∧
    RequireStatusCheck.run c7OnlyF =
      [{ path := c7FetchPath, msg := "missingStatusCheck", fix := false }] :=
  ⟨rfl, rfl⟩

/-- Claim C7, amended: suppression is purely name-based and global to the
unit — any `.ok`/`.status` member access on an identifier named `V`
anywhere in the unit (any function, before or after the call site)
suppresses `missingStatusCheck` for every fetch call bound to a variable
named `V`. -/
theorem c7_amended (prog : List Stmt) (V prop : String) (ancM p : List Step)
    (hprop : prop = "ok" ∨ prop = "status")
    (hmem : (ancM, Expr.member (.ident V) prop) ∈ visits prog)
    (hfa : RequireStatusCheck.findFetchAssignment p = some V) :
    Diag.mk p "missingStatusCheck" false ∉ RequireStatusCheck.run prog :=
  statusCheck_suppressed prog V prop ancM p hprop hmem hfa

/-- Witness for `c7_amended` at the concrete cross-function unit
`c7Prog`. -/
theorem c7_amended_witness :
    Diag.mk [Step.awaitArg, Step.vdInit "r", Step.blockItem 0, Step.funcBody,
        Step.progStmt 1] "missingStatusCheck" false ∉
      RequireStatusCheck.run c7Prog :=
  c7_amended c7Prog "r" "ok"
    [Step.exprOfStmt, Step.blockItem 0, Step.funcBody, Step.progStmt 0]
    [Step.awaitArg, Step.vdInit "r", Step.blockItem 0, Step.funcBody, Step.progStmt 1]
    (Or.inl rfl) (List.mem_cons_self _ _) rfl

/-- Claim C8 (confirmed): `fetch(url + '?q=' + q)` yields
`unsafeQueryParam`; `fetch(url + '?q=' + encodeURIComponent(q))` yields
`preferURLSearchParams` under the default option value and nothing when
the option is set to false. -/
theorem c8_queryEncoding :
    RequireEncodedQueryParams.run true c8aProg =
      [{ path := c8UrlPath, msg := "unsafeQueryParam", fix := false }] ∧
    RequireEncodedQueryParams.run true c8bProg =
      [{ path := c8UrlPath, msg := "preferURLSearchParams", fix := false }] ∧
    RequireEncodedQueryParams.run false c8bProg = [] :=
  ⟨rfl, rfl, rfl⟩

/-- Claim C9, counterexample.  One response variable bound to one fetch
call followed by two unprotected `.json()` calls yields two
`missingContentTypeCheck` diagnostics, one per `.json()` call node — not
at most one per call site. -/
theorem c9_counterexample :
    RequireJsonResponseCheck.run (c9Prog 2) =
      [{ path := [Step.exprOfStmt, Step.progStmt 1], msg := "missingContentTypeCheck",
         fix := false },
       { path := [Step.exprOfStmt, Step.progStmt 2], msg := "missingContentTypeCheck",
         fix := false }] := rfl

/-- Claim C10 (confirmed): any member call named `toString` inside the
URL argument makes `hasURLSearchParams` true, so `checkUrlArgument`
reports nothing for that URL (for either option value); in particular
`fetch('/api?q=' + q.toString())` produces no diagnostic. -/
theorem c10_toStringAccepted :
    (∀ (allow : Bool) (path : List Step) (url : Expr),
        exprAny RequireEncodedQueryParams.isToStringMethodCall url = true →
        RequireEncodedQueryParams.checkUrlArgument allow path url = []) ∧
    RequireEncodedQueryParams.run true c10Prog = [] ∧
    RequireEncodedQueryParams.run false c10Prog = [] := by
  refine ⟨?_, rfl, rfl⟩
  intro allow path url hts
  have husp : RequireEncodedQueryParams.hasURLSearchParams url = true := by
    unfold RequireEncodedQueryParams.hasURLSearchParams
    exact exprAny_mono _ _ (fun x hx => by rw [hx]; simp) url hts
  unfold RequireEncodedQueryParams.checkUrlArgument
  have hcq : RequireEncodedQueryParams.containsQueryParams url = false := by
    unfold RequireEncodedQueryParams.containsQueryParams
    cases url
    case binop op l r =>
      by_cases hop : op = "+"
      · subst hop; simp [husp]
      · simp [hop]
    case template es =>
      by_cases hlen : es.length > 0
      · simp [hlen, husp]
      · simp [hlen]
    all_goals rfl
  simp [hcq]

/-- Witness for `c10_toStringAccepted` at the concrete URL argument of
`c10Prog`. -/
theorem c10_witness :
    RequireEncodedQueryParams.checkUrlArgument true [] c10Url = [] :=
  c10_toStringAccepted.1 true [] c10Url rfl

/-! ## Promise-chain lemmas (claim C5) -/

theorem eh_chainLoop (u : String) :
    ∀ (cs : List Bool) (p : List Step),
      RequireErrorHandling.chainLoop p (mkChainR u cs) = some (fpos cs p)
  | [], p => by simp [mkChainR, RequireErrorHandling.chainLoop, fpos]
  | c :: cs, p => by
      cases c <;>
        simp [mkChainR, contName, RequireErrorHandling.chainLoop, fpos, eh_chainLoop u cs]

theorem paa_chainLoop (u : String) :
    ∀ (cs : List Bool) (p : List Step),
      PreferAsyncAwait.chainLoop p (mkChainR u cs) = some (fpos cs p)
  | [], p => by simp [mkChainR, PreferAsyncAwait.chainLoop, fpos]
  | c :: cs, p => by
      cases c <;>
        simp [mkChainR, contName, PreferAsyncAwait.chainLoop, fpos, paa_chainLoop u cs]

theorem eh_step_of_not (st : RequireErrorHandling.RState) (v : List Step × Expr)
    (hf : RequireErrorHandling.isFetchCall v.2 = false)
    (hc : RequireErrorHandling.isCatchCall v.2 = false) :
    RequireErrorHandling.step st v = st := by
  unfold RequireErrorHandling.step
  simp [hf, hc]

theorem eh_step_fetch (u : String) (st : RequireErrorHandling.RState) (anc : List Step)
    (h1 : RequireErrorHandling.isInsideTryCatch anc = false)
    (h2 : RequireErrorHandling.isFireAndForget anc = false) :
    RequireErrorHandling.step st (anc, .call (.ident "fetch") [.strLit u]) =
      { st with noHandling := addOnce anc st.noHandling } := by
  unfold RequireErrorHandling.step
  simp [RequireErrorHandling.isFetchCall, RequireErrorHandling.isCatchCall,
    RequireErrorHandling.hasPromiseChainWithCatch, h1, h2]

theorem eh_step_cont (st : RequireErrorHandling.RState) (anc : List Step)
    (inner : Expr) (args : List Expr) (c : Bool) (f : List Step)
    (hloop : RequireErrorHandling.chainLoop (Step.memberObj :: Step.callCallee :: anc) inner =
      some f) :
    RequireErrorHandling.step st (anc, .call (.member inner (contName c)) args) =
      if c then { st with handled := addOnce f st.handled } else st := by
  unfold RequireErrorHandling.step
  cases c <;>
    simp [RequireErrorHandling.isFetchCall, RequireErrorHandling.isCatchCall, contName,
      RequireErrorHandling.findFetchInPromiseChain, hloop]

theorem eh_fold (u : String) :
    ∀ (cs : List Bool) (anc : List Step) (st : RequireErrorHandling.RState),
      RequireErrorHandling.isInsideTryCatch anc = false →
      RequireErrorHandling.isFireAndForget anc = false →
      (visitExpr anc (mkChainR u cs)).foldl RequireErrorHandling.step st =
        { noHandling := addOnce (fpos cs anc) st.noHandling,
          handled := if true ∈ cs then addOnce (fpos cs anc) st.handled else st.handled } := by
  intro cs
  induction cs with
  | nil =>
      intro anc st h1 h2
      simp only [mkChainR, visitExpr, visitExprList, List.foldl_cons, List.foldl_append,
        List.foldl_nil, List.append_nil]
      rw [eh_step_fetch u st anc h1 h2,
        eh_step_of_not _ (_, .ident "fetch") rfl rfl,
        eh_step_of_not _ (_, .strLit u) rfl rfl]
      simp [fpos]
  | cons c cs ih =>
      intro anc st h1 h2
      have h1s : RequireErrorHandling.isInsideTryCatch
          (Step.memberObj :: Step.callCallee :: anc) = false := by
        simpa [RequireErrorHandling.isInsideTryCatch] using h1
      have h2s : RequireErrorHandling.isFireAndForget
          (Step.memberObj :: Step.callCallee :: anc) = false := rfl
      simp only [mkChainR, visitExpr, visitExprList, List.foldl_cons, List.foldl_append,
        List.foldl_nil, List.append_nil]
      rw [eh_step_cont st anc (mkChainR u cs) _ c _ (eh_chainLoop u cs _),
        eh_step_of_not _ (_, .member (mkChainR u cs) (contName c)) rfl rfl]
      rw [ih (Step.memberObj :: Step.callCallee :: anc) _ h1s h2s]
      rw [eh_step_of_not _ (_, .arrowFn ["x"] (.ident "x")) rfl rfl,
        eh_step_of_not _ (_, .ident "x") rfl rfl]
      cases c
      case false =>
        simp only [Bool.false_eq_true, if_false, fpos]
        have : (true ∈ (false :: cs)) = (true ∈ cs) := by simp
        by_cases hm : true ∈ cs <;> simp [hm]
      case true =>
        simp only [if_true, fpos]
        by_cases hm : true ∈ cs <;> simp [hm, addOnce_idem]

theorem paa_step_skip (st : List (List Step) × List Diag) (v : List Step × Expr)
    (h : PreferAsyncAwait.isThenOrCatchCall v.2 = false) :
    PreferAsyncAwait.step st v = st := by
  unfold PreferAsyncAwait.step
  simp [h]

theorem paa_step_cont (st : List (List Step) × List Diag) (anc : List Step)
    (inner : Expr) (args : List Expr) (c : Bool) (f : List Step)
    (hloop : PreferAsyncAwait.chainLoop (Step.memberObj :: Step.callCallee :: anc) inner =
      some f) :
    PreferAsyncAwait.step st (anc, .call (.member inner (contName c)) args) =
      if f ∈ st.1 then st
      else (st.1 ++ [f], st.2 ++ [{ path := f, msg := "preferAsyncAwait", fix := false }]) := by
  unfold PreferAsyncAwait.step
  cases c <;>
    simp [PreferAsyncAwait.isThenOrCatchCall, contName, PreferAsyncAwait.findFetchInChain,
      hloop]

theorem paa_fold_skip (u : String) :
    ∀ (cs : List Bool) (anc : List Step) (st : List (List Step) × List Diag),
      fpos cs anc ∈ st.1 →
      (visitExpr anc (mkChainR u cs)).foldl PreferAsyncAwait.step st = st := by
  intro cs
  induction cs with
  | nil =>
      intro anc st h
      simp only [mkChainR, visitExpr, visitExprList, List.foldl_cons, List.foldl_append,
        List.foldl_nil, List.append_nil]
      rw [paa_step_skip _ (_, .call (.ident "fetch") [.strLit u]) rfl,
        paa_step_skip _ (_, .ident "fetch") rfl,
        paa_step_skip _ (_, .strLit u) rfl]
  | cons c cs ih =>
      intro anc st h
      simp only [mkChainR, visitExpr, visitExprList, List.foldl_cons, List.foldl_append,
        List.foldl_nil, List.append_nil]
      rw [paa_step_cont st anc (mkChainR u cs) _ c _ (paa_chainLoop u cs _)]
      rw [if_pos (show fpos cs (Step.memberObj :: Step.callCallee :: anc) ∈ st.1 from h)]
      rw [paa_step_skip _ (_, .member (mkChainR u cs) (contName c)) rfl]
      rw [ih (Step.memberObj :: Step.callCallee :: anc) st h]
      rw [paa_step_skip _ (_, .arrowFn ["x"] (.ident "x")) rfl,
        paa_step_skip _ (_, .ident "x") rfl]

theorem fetch_mem_chain_visits (u : String) :
    ∀ (cs : List Bool) (anc : List Step),
      (fpos cs anc, Expr.call (.ident "fetch") [.strLit u]) ∈ visitExpr anc (mkChainR u cs)
  | [], anc => by simp [mkChainR, visitExpr, fpos]
  | c :: cs, anc => by
      simp only [mkChainR, visitExpr, fpos]
      refine List.mem_cons_of_mem _ (List.mem_append_left _ ?_)
      exact List.mem_cons_of_mem _ (fetch_mem_chain_visits u cs _)

theorem eh_chain_run (u : String) (cs : List Bool) :
    RequireErrorHandling.run (chainProg u (true :: cs)) = [] := by
  unfold RequireErrorHandling.run chainProg visits
  simp only [visitStmtList, visitStmt, List.append_nil]
  simp only [mkChainR, visitExpr, visitExprList, List.foldl_cons, List.foldl_append,
    List.foldl_nil, List.append_nil]
  rw [eh_step_cont _ _ (mkChainR u cs) _ true _ (eh_chainLoop u cs _)]
  rw [if_pos rfl]
  rw [eh_step_of_not _ (_, .member (mkChainR u cs) (contName true)) rfl rfl]
  rw [eh_fold u cs
    [Step.memberObj, Step.callCallee, Step.exprOfStmt, Step.progStmt 0] _ rfl rfl]
  rw [eh_step_of_not _ (_, .arrowFn ["x"] (.ident "x")) rfl rfl,
    eh_step_of_not _ (_, .ident "x") rfl rfl]
  by_cases hm : true ∈ cs <;>
    simp [hm, addOnce, List.filter, mem_addOnce_self]

theorem paa_chain_run (u : String) (c : Bool) (cs : List Bool) :
    PreferAsyncAwait.run (chainProg u (c :: cs)) =
      [{ path := fpos (c :: cs) [Step.exprOfStmt, Step.progStmt 0],
         msg := "preferAsyncAwait", fix := false }] := by
  unfold PreferAsyncAwait.run chainProg visits
  simp only [visitStmtList, visitStmt, List.append_nil]
  simp only [mkChainR, visitExpr, visitExprList, List.foldl_cons, List.foldl_append,
    List.foldl_nil, List.append_nil]
  rw [paa_step_cont _ _ (mkChainR u cs) _ c _ (paa_chainLoop u cs _)]
  rw [if_neg (List.not_mem_nil _)]
  rw [paa_step_skip _ (_, .member (mkChainR u cs) (contName c)) rfl]
  rw [paa_fold_skip u cs _ _ (by simp)]
  rw [paa_step_skip _ (_, .arrowFn ["x"] (.ident "x")) rfl,
    paa_step_skip _ (_, .ident "x") rfl]
  simp [fpos]

/-- Claim C5 (confirmed): a fetch call followed by N ≥ 1 chained
then/catch continuations whose final (outermost) continuation is a catch
yields zero error-handling diagnostics and exactly one
`preferAsyncAwait`, anchored at the path of the original `fetch(u)` call
node (the third conjunct certifies that this path is indeed the fetch
call's node in the unit), not at any continuation. -/
theorem c5_chainWithTerminalCatch (u : String) (cs : List Bool) :
    RequireErrorHandling.run (chainProg u (true :: cs)) = [] ∧
    PreferAsyncAwait.run (chainProg u (true :: cs)) =
      [{ path := fpos (true :: cs) [Step.exprOfStmt, Step.progStmt 0],
         msg := "preferAsyncAwait", fix := false }] ∧
    (fpos (true :: cs) [Step.exprOfStmt, Step.progStmt 0],
        Expr.call (.ident "fetch") [.strLit u]) ∈ visits (chainProg u (true :: cs)) := by
  refine ⟨eh_chain_run u cs, paa_chain_run u true cs, ?_⟩
  show _ ∈ visitStmtList (fun i => Step.progStmt i) [] 0 [Stmt.exprStmt (mkChainR u (true :: cs))]
  simp only [visitStmtList, visitStmt, List.append_nil]
  exact fetch_mem_chain_visits u (true :: cs) _

/-! ## Receive-side detector: one report per unchecked `.json()` call
(claim C9) -/

theorem jrc_fold_replicate :
    ∀ (n i : Nat) (st : RequireJsonResponseCheck.JState),
      RequireJsonResponseCheck.mapGet st.responseVariables "r" =
        some (Expr.call (.ident "fetch") [.strLit "/a"]) →
      st.checkedResponses = [] →
      (∀ k, i ≤ k → [Step.exprOfStmt, Step.progStmt k] ∉ st.jsonCalls) →
      ((visitStmtList (fun j => Step.progStmt j) [] i
          (List.replicate n (Stmt.exprStmt (.call (.member (.ident "r") "json") [])))).foldl
        RequireJsonResponseCheck.step st).jsonCalls =
        st.jsonCalls ++
          (List.range n).map (fun k => [Step.exprOfStmt, Step.progStmt (i + k)]) := by
  intro n
  induction n with
  | zero =>
      intro i st h1 h2 h3
      simp [visitStmtList]
  | succ n ih =>
      intro i st h1 h2 h3
      rw [List.replicate_succ]
      simp only [visitStmtList, visitStmt, visitExpr, visitExprList, List.foldl_cons,
        List.foldl_append, List.foldl_nil, List.append_nil]
      have hstep1 :
          RequireJsonResponseCheck.step st
            ([Step.exprOfStmt, Step.progStmt i], .call (.member (.ident "r") "json") []) =
          { st with jsonCalls :=
              st.jsonCalls ++ [[Step.exprOfStmt, Step.progStmt i]] } := by
        unfold RequireJsonResponseCheck.step RequireJsonResponseCheck.jsonPart
          RequireJsonResponseCheck.ctPart
        simp [RequireJsonResponseCheck.isFetchCall, RequireJsonResponseCheck.isContentTypeCheck,
          RequireJsonResponseCheck.isInsideTryCatch, h1, h2,
          show strEndsWith "/a" ".json" = false from rfl,
          RequireJsonResponseCheck.hasJsonExtension,
          addOnce_of_not_mem (h3 i (Nat.le_refl i))]
      have hstep2 : ∀ st2 : RequireJsonResponseCheck.JState,
          RequireJsonResponseCheck.step st2
            (Step.callCallee :: [Step.exprOfStmt, Step.progStmt i],
              .member (.ident "r") "json") = st2 := by
        intro st2
        unfold RequireJsonResponseCheck.step RequireJsonResponseCheck.ctPart
        simp [RequireJsonResponseCheck.isFetchCall, RequireJsonResponseCheck.isContentTypeCheck]
      have hstep3 : ∀ st2 : RequireJsonResponseCheck.JState,
          RequireJsonResponseCheck.step st2
            (Step.memberObj :: Step.callCallee :: [Step.exprOfStmt, Step.progStmt i],
              .ident "r") = st2 := by
        intro st2
        unfold RequireJsonResponseCheck.step RequireJsonResponseCheck.ctPart
        simp [RequireJsonResponseCheck.isFetchCall, RequireJsonResponseCheck.isContentTypeCheck]
      rw [hstep1, hstep2 _, hstep3 _]
      rw [ih (i + 1) _ (by simpa using h1) (by simpa using h2) ?_]
      · rw [List.append_assoc]
        congr 1
        rw [List.range_succ_eq_map]
        simp only [List.map_cons, List.map_map, List.cons_append, List.nil_append,
          Nat.add_zero]
        have hfun : (fun k => [Step.exprOfStmt, Step.progStmt (i + 1 + k)]) =
            ((fun k => [Step.exprOfStmt, Step.progStmt (i + k)]) ∘ Nat.succ) := by
          funext k
          simp only [Function.comp]
          rw [show i + 1 + k = i + (k + 1) from by omega]
        rw [hfun]
      · intro k hk
        simp only [List.mem_append, List.mem_singleton]
        rintro (hmem | heq)
        · exact h3 k (by omega) hmem
        · have : k = i := by simpa using heq
          omega

/-- Claim C9, amended: the receive-side detector reports once per
unchecked `.json()` call node, so one response variable bound to one
fetch call followed by n unprotected `.json()` statements yields exactly
n `missingContentTypeCheck` diagnostics, one anchored at each `.json()`
call. -/
theorem c9_amended (n : Nat) :
    RequireJsonResponseCheck.run (c9Prog n) =
      (List.range n).map
        (fun k => { path := [Step.exprOfStmt, Step.progStmt (1 + k)],
                    msg := "missingContentTypeCheck", fix := false }) := by
  unfold RequireJsonResponseCheck.run
  dsimp only
  have hsplit : visits (c9Prog n) =
      visitExpr [Step.vdInit "r", Step.progStmt 0]
        (.awaitExpr (.call (.ident "fetch") [.strLit "/a"])) ++
      visitStmtList (fun j => Step.progStmt j) [] 1
        (List.replicate n (Stmt.exprStmt (.call (.member (.ident "r") "json") []))) := by
    simp [visits, c9Prog, visitStmtList, visitStmt]
  rw [hsplit, List.foldl_append]
  have h0 : (visitExpr [Step.vdInit "r", Step.progStmt 0]
        (.awaitExpr (.call (.ident "fetch") [.strLit "/a"]))).foldl
      RequireJsonResponseCheck.step
      { responseVariables := [], checkedResponses := [], jsonCalls := [] } =
      { responseVariables := [("r", Expr.call (.ident "fetch") [.strLit "/a"])],
        checkedResponses := [], jsonCalls := [] } := rfl
  rw [h0]
  rw [jrc_fold_replicate n 1
    { responseVariables := [("r", Expr.call (.ident "fetch") [.strLit "/a"])],
      checkedResponses := [], jsonCalls := [] } rfl rfl (fun k _ => List.not_mem_nil _)]
  simp [List.map_map, Function.comp]

end FetchPlugin
